import Mathlib

/-
  Verification development for the bookbuilder repository.

  The embedding below translates the core pipeline code
  (bookbuilder/utils.py, bookbuilder/convert.py, bookbuilder/combine.py)
  into executable Lean definitions.  External collaborators are modelled
  as explicit parameters:
  - the filesystem (existence and modification times) as an `FS` record,
  - the PDF page-count reader as a function `String → Option Nat`
    (`none` means the file cannot be read),
  - the WeasyPrint rendering engine as `String → Except String Unit`.
  Modification times (floats in the code) are modelled as `Int`; string
  functions from the Python standard library (`urllib.parse.unquote`,
  `str.lower`, `os.path.basename`) are modelled on their ASCII fragment.
-/

namespace BookBuilder

/-! ### Character helpers (ASCII fragment of the Python stdlib) -/

def isAsciiUpper (c : Char) : Bool := 65 ≤ c.toNat && c.toNat ≤ 90

def isAsciiLower (c : Char) : Bool := 97 ≤ c.toNat && c.toNat ≤ 122

def isAsciiDigit (c : Char) : Bool := 48 ≤ c.toNat && c.toNat ≤ 57

def isAsciiAlpha (c : Char) : Bool := isAsciiUpper c || isAsciiLower c

def isAsciiAlnum (c : Char) : Bool := isAsciiAlpha c || isAsciiDigit c

/-- Model of `str.lower` on a single character (ASCII fragment). -/
def asciiLower (c : Char) : Char :=
  if isAsciiUpper c then Char.ofNat (c.toNat + 32) else c

/-- Model of the `\s` character class of the `re` module (ASCII fragment). -/
def isWsChar (c : Char) : Bool :=
  c == ' ' || c == '\t' || c == '\n' || c == '\x0d' || c == '\x0b' || c == '\x0c'

/-- Value of a hexadecimal digit, if the character is one. -/
def hexDigitVal (c : Char) : Option Nat :=
  if 48 ≤ c.toNat ∧ c.toNat ≤ 57 then some (c.toNat - 48)
  else if 97 ≤ c.toNat ∧ c.toNat ≤ 102 then some (c.toNat - 87)
  else if 65 ≤ c.toNat ∧ c.toNat ≤ 70 then some (c.toNat - 55)
  else none

/-- Model of `urllib.parse.unquote` on the ASCII fragment: a `%hh` escape
with hexadecimal digits and value below 128 is decoded to that character;
any other `%` is kept literally (as `unquote` keeps undecodable escapes).
Escapes with value 128 or above (multi-byte UTF-8 in Python) are left
undecoded in this model.  The `Nat` argument is fuel, a Lean artifact
making the recursion structural; each step consumes at least one
character, so fuel equal to the length never runs out. -/
def unquoteFuel : Nat → List Char → List Char
  | 0, l => l
  | _, [] => []
  | fuel + 1, '%' :: a :: b :: rest2 =>
    match hexDigitVal a, hexDigitVal b with
    | some hi, some lo =>
      if hi * 16 + lo < 128 then Char.ofNat (hi * 16 + lo) :: unquoteFuel fuel rest2
      else '%' :: a :: b :: unquoteFuel fuel rest2
    | _, _ => '%' :: unquoteFuel fuel (a :: b :: rest2)
  | fuel + 1, c :: rest => c :: unquoteFuel fuel rest

def unquoteAux (l : List Char) : List Char := unquoteFuel l.length l

def unquote (s : String) : String := ⟨unquoteAux s.data⟩

/-- True when the first list is an initial segment of the second. -/
def beginsWith : List Char → List Char → Bool
  | [], _ => true
  | _ :: _, [] => false
  | p :: ps, c :: cs => p == c && beginsWith ps cs

/-- Model of Python `str.endswith` (and of `String.endsWith`), kept
kernel-computable. -/
def strEndsWith (s pat : String) : Bool := beginsWith pat.data.reverse s.data.reverse

/-- Model of `os.path.basename` (POSIX): the part after the last slash. -/
def basenameL (l : List Char) : List Char :=
  (l.reverse.takeWhile (fun c => c != '/')).reverse

def basename (s : String) : String := ⟨basenameL s.data⟩

/-- Model of `os.path.join(root, s)` for a relative second component and a
root without a trailing slash. -/
def joinPath (root s : String) : String := root ++ "/" ++ s

/-- Model of `os.path.isabs` (POSIX). -/
def isAbsPath (s : String) : Bool :=
  match s.data with
  | '/' :: _ => true
  | _ => false

/-- Leading and trailing occurrences of one character removed:
model of Python `str.strip` with a one-character argument. -/
def stripChar (c : Char) (l : List Char) : List Char :=
  ((l.dropWhile (fun d => d == c)).reverse.dropWhile (fun d => d == c)).reverse

/-- Whitespace stripped from both ends: model of Python `str.strip()`. -/
def stripWs (l : List Char) : List Char :=
  ((l.dropWhile isWsChar).reverse.dropWhile isWsChar).reverse

/-- True when the list, lowercased, ends in `.md`:
model of `s.lower().endswith(".md")`. -/
def endsInMdL (l : List Char) : Bool :=
  match (l.map asciiLower).reverse with
  | 'd' :: 'm' :: '.' :: _ => true
  | _ => false

/-! ### Filesystem model -/

/-- The filesystem as seen by `os.path.exists` and `os.path.getmtime`.
Modification times are totally ordered; `Int` stands in for the float
timestamps, and `mtime` is only consulted on paths that exist. -/
structure FS where
  pexists : String → Bool
  mtime : String → Int

/-! ### bookbuilder/convert.py: is_conversion_needed (lines 196 to 218) -/

def is_conversion_needed (fs : FS) (md_path pdf_path : String) (force : Bool) : Bool :=
  if force then true
  else if ! fs.pexists pdf_path then true
  else decide (fs.mtime md_path > fs.mtime pdf_path)

/-! ### bookbuilder/combine.py: resolve_file_path (lines 68 to 103) -/

def resolve_file_path (pexists : String → Bool) (file_ref root_dir : String) : String :=
  if isAbsPath file_ref then file_ref
  else
    let abs_path := joinPath root_dir file_ref
    if pexists abs_path then abs_path
    else if ! strEndsWith file_ref ".md" && ! strEndsWith file_ref ".pdf" then
      let md_path := joinPath root_dir (file_ref ++ ".md")
      if pexists md_path then md_path
      else
        let pdf_path := joinPath root_dir (file_ref ++ ".pdf")
        if pexists pdf_path then pdf_path
        else abs_path
    else abs_path

/-! ### bookbuilder/utils.py: filename_to_anchor (lines 132 to 155) -/

/-- One step of `re.sub(r'[^a-zA-Z0-9]+', '-', s)`: a maximal run of
non-alphanumeric characters becomes a single hyphen.  The flag records
whether the previous character was part of such a run. -/
def collapseAux : Bool → List Char → List Char
  | _, [] => []
  | inRun, c :: rest =>
    if isAsciiAlnum c then c :: collapseAux false rest
    else if inRun then collapseAux true rest
    else '-' :: collapseAux true rest

def filename_to_anchor (filename : String) : String :=
  let name := if endsInMdL filename.data then filename.data.take (filename.data.length - 3)
              else filename.data
  let name := unquoteAux name
  let lowered := name.map asciiLower
  ⟨stripChar '-' (collapseAux false lowered)⟩

/-- The anchor that `build_anchor_map` (utils.py lines 158 to 194) registers
for a file path: it is derived from the basename alone. -/
def anchorOfPath (p : String) : String := filename_to_anchor (basename p)

/-! ### Claim C1 -/

/-- C1: `is_conversion_needed` returns true exactly when the force flag is set,
or no file exists at the PDF path, or the markdown modification time is
strictly greater than the PDF modification time; in every other case (the PDF
exists and its mtime is at least the markdown mtime) it returns false. -/
theorem claim_C1_is_conversion_needed (fs : FS) (md_path pdf_path : String) (force : Bool) :
    is_conversion_needed fs md_path pdf_path force
      = (force || ! fs.pexists pdf_path || decide (fs.mtime md_path > fs.mtime pdf_path))
    ∧ (is_conversion_needed fs md_path pdf_path force = false
        ↔ force = false ∧ fs.pexists pdf_path = true
            ∧ fs.mtime md_path ≤ fs.mtime pdf_path) := by
  refine ⟨?_, ?_⟩ <;> cases force <;> cases h : fs.pexists pdf_path <;>
    simp [is_conversion_needed, h, gt_iff_lt, not_lt]

/-- C1 witness: with the PDF present and newer than the markdown and no
force flag, the cached PDF is kept. -/
theorem claim_C1_witness :
    is_conversion_needed ⟨fun _ => true, fun p => if p = "a.md" then 5 else 7⟩
      "a.md" "a.pdf" false = false :=
  ((claim_C1_is_conversion_needed ⟨fun _ => true, fun p => if p = "a.md" then 5 else 7⟩
      "a.md" "a.pdf" false).2).mpr ⟨rfl, rfl, by decide⟩

/-! ### Claim C6 -/

/-- C6: `resolve_file_path` returns the reference unchanged if absolute;
otherwise the root-joined path if it exists; otherwise, for a reference with
no `.md`/`.pdf` suffix, the root-joined path with `.md` appended if that
exists, else with `.pdf` appended if that exists; and when nothing resolves
it still returns the root-joined path rather than failing. -/
theorem claim_C6_resolve_file_path (pexists : String → Bool) (file_ref root_dir : String) :
    (isAbsPath file_ref = true → resolve_file_path pexists file_ref root_dir = file_ref)
  ∧ (isAbsPath file_ref = false → pexists (joinPath root_dir file_ref) = true →
      resolve_file_path pexists file_ref root_dir = joinPath root_dir file_ref)
  ∧ (isAbsPath file_ref = false → pexists (joinPath root_dir file_ref) = false →
      strEndsWith file_ref ".md" = false → strEndsWith file_ref ".pdf" = false →
      pexists (joinPath root_dir (file_ref ++ ".md")) = true →
      resolve_file_path pexists file_ref root_dir = joinPath root_dir (file_ref ++ ".md"))
  ∧ (isAbsPath file_ref = false → pexists (joinPath root_dir file_ref) = false →
      strEndsWith file_ref ".md" = false → strEndsWith file_ref ".pdf" = false →
      pexists (joinPath root_dir (file_ref ++ ".md")) = false →
      pexists (joinPath root_dir (file_ref ++ ".pdf")) = true →
      resolve_file_path pexists file_ref root_dir = joinPath root_dir (file_ref ++ ".pdf"))
  ∧ (isAbsPath file_ref = false → pexists (joinPath root_dir file_ref) = false →
      (strEndsWith file_ref ".md" = true ∨ strEndsWith file_ref ".pdf" = true ∨
        (pexists (joinPath root_dir (file_ref ++ ".md")) = false ∧
         pexists (joinPath root_dir (file_ref ++ ".pdf")) = false)) →
      resolve_file_path pexists file_ref root_dir = joinPath root_dir file_ref) := by
  unfold resolve_file_path
  refine ⟨fun h1 => ?_, fun h1 h2 => ?_, fun h1 h2 h3 h4 h5 => ?_,
          fun h1 h2 h3 h4 h5 h6 => ?_, fun h1 h2 h3 => ?_⟩
  · simp [h1]
  · simp [h1, h2]
  · simp [h1, h2, h3, h4, h5]
  · simp [h1, h2, h3, h4, h5, h6]
  · rcases h3 with h3 | h3 | h3
    · simp [h1, h2, h3]
    · simp [h1, h2, h3]
    · simp [h1, h2, h3.1, h3.2]

/-- C6 witness: an extension-less reference resolves to the `.md` candidate
when only that candidate exists. -/
theorem claim_C6_witness :
    resolve_file_path (fun s => s == "/r/ch1.md") "ch1" "/r" = "/r/ch1.md" :=
  (claim_C6_resolve_file_path (fun s => s == "/r/ch1.md") "ch1" "/r").2.2.1
    (by decide) (by decide) (by decide) (by decide) (by decide)

/-! ### Claim C7 -/

/-- C7: anchor derivation is deterministic and satisfies the round-trip
equalities: both "My Chapter.md" and "my%20chapter.md" map to "my-chapter";
and since `build_anchor_map` derives the anchor from the basename alone,
two files with identical basenames always map to the same anchor regardless
of directory. -/
theorem claim_C7_filename_to_anchor :
    filename_to_anchor "My Chapter.md" = "my-chapter"
  ∧ filename_to_anchor "my%20chapter.md" = "my-chapter"
  ∧ ∀ p q : String, basename p = basename q → anchorOfPath p = anchorOfPath q := by
  refine ⟨by decide, by decide, fun p q h => ?_⟩
  unfold anchorOfPath
  rw [h]

/-- C7 witness: two paths with the same basename in different directories
share one anchor. -/
theorem claim_C7_witness :
    basename "docs/Intro.md" = basename "other/Intro.md"
  ∧ anchorOfPath "docs/Intro.md" = anchorOfPath "other/Intro.md" :=
  ⟨by decide, claim_C7_filename_to_anchor.2.2 "docs/Intro.md" "other/Intro.md" (by decide)⟩

/-! ### bookbuilder/convert.py: extract_title_from_markdown (lines 39 to 59)

The code runs `re.search(r'^#\s+(.+?)\s*$', md_content, re.MULTILINE)`
first, and only when that finds nothing searches for the Setext pattern
`^(.+?)\n=+\s*$`.  With `re.MULTILINE`, `^` anchors candidate positions
at line starts, but `\s` matches newlines, so the ATX pattern is not
line-local: the whitespace run after `#` may span lines.  The lazy group
`(.+?)` uses `.`, which does not match a newline, so the captured text
always lies within a single line.  The Setext pattern is line-local:
its `(.+?)` must fill one whole line (only then can `\n` match), and
after `=+` the trailing `\s*$` succeeds exactly when the rest of the
equals line is whitespace ($ fires at that line break even though `\s*`
could run on). -/

def splitLinesAux : List Char → List Char → List (List Char)
  | [], acc => [acc.reverse]
  | '\n' :: rest, acc => acc.reverse :: splitLinesAux rest []
  | c :: rest, acc => splitLinesAux rest (c :: acc)

def splitLines (l : List Char) : List (List Char) := splitLinesAux l []

/-- The rest of the content from just past the next newline: the next
candidate `^` position of the MULTILINE search. -/
def skipLine (l : List Char) : List Char :=
  (l.dropWhile (fun c => c != '\n')).drop 1

/-- The ATX attempt of `re.search(r'^#\s+(.+?)\s*$', ...)` at one
candidate position, given the text after the `#`, returning the title
after the `.strip()` the code applies.  Backtracking makes the outcome
deterministic:
- with no whitespace directly after `#` there is no match;
- when a non-whitespace character follows the whitespace run, the
  greedy `\s+` keeps the whole run and that first attempt already
  succeeds: the lazy group grows from that character to the last
  non-whitespace character of its line and `\s*$` closes the line, so
  the stripped title is that line segment trimmed of trailing
  whitespace (the run may span newlines, so the title can come from a
  later line than the `#`);
- when the content ends inside the run, the group must take characters
  of the run itself: `\s+` keeps at least the first, and `.` cannot
  take a newline, so a match exists exactly when the run past its first
  character has a non-newline character; the group is then whitespace
  and the stripped title is empty. -/
def atxMatchAt (r : List Char) : Option (List Char) :=
  let w := r.takeWhile isWsChar
  match r.dropWhile isWsChar with
  | [] =>
    if w.isEmpty then none
    else if (w.drop 1).any (fun c => c != '\n') then some [] else none
  | c :: rest =>
    if w.isEmpty then none
    else some (stripWs ((c :: rest).takeWhile (fun d => d != '\n')))

/-- The MULTILINE search for the ATX pattern: candidate positions are
the line starts, in order; at a line starting with `#` the attempt
above decides, and on failure the search moves on to the next line
start.  The `Nat` argument is fuel, a Lean artifact; every step drops
at least one character, so fuel equal to the length never runs out. -/
def atxScanFuel : Nat → List Char → Option (List Char)
  | 0, _ => none
  | fuel + 1, l =>
    match l with
    | [] => none
    | c :: r =>
      if c = '#' then
        match atxMatchAt r with
        | some t => some t
        | none => atxScanFuel fuel (skipLine (c :: r))
      else atxScanFuel fuel (skipLine (c :: r))

def atxSearch (l : List Char) : Option (List Char) := atxScanFuel l.length l

/-- Whether a line matches `=+\s*$` (the underline of a Setext heading). -/
def isEqualsLine : List Char → Bool
  | '=' :: rest => (rest.dropWhile (fun c => c == '=')).all isWsChar
  | _ => false

/-- Scan for the first Setext pair: a nonempty line followed by an
equals-sign line (the `re.search` for the Setext pattern). -/
def setextScan : List (List Char) → Option (List Char)
  | [] => none
  | l1 :: rest1 =>
    match rest1.head? with
    | none => none
    | some l2 =>
      if l1 ≠ [] ∧ isEqualsLine l2 then some (stripWs l1) else setextScan rest1

def extract_title_from_markdown (content : String) : Option String :=
  match atxSearch content.data with
  | some t => some ⟨t⟩
  | none => (setextScan (splitLines content.data)).map fun t => (⟨t⟩ : String)

/-- Title actually used by `convert_markdown_to_pdf` (convert.py lines
272 to 275): the extracted title, or the configured fallback when
extraction returns `None` or an empty (falsy) string. -/
def title_for_render (content fallback : String) : String :=
  match extract_title_from_markdown content with
  | some t => if t = "" then fallback else t
  | none => fallback

/-- The claim side of C5, following the words of the spec: an ATX
heading line `# ...` as the spec describes it, with its text trimmed. -/
def specAtxLine : List Char → Option (List Char)
  | '#' :: c :: d :: rest => if isWsChar c then some (stripWs (c :: d :: rest)) else none
  | _ => none

/-- The claim side of C5, following the words of the spec: scan once
for the first heading of either form, the first match (by position)
winning; at one line an ATX match is preferred as the tie break. -/
def firstMatchScan : List (List Char) → Option (List Char)
  | [] => none
  | l1 :: rest1 =>
    match specAtxLine l1 with
    | some t => some t
    | none =>
      match rest1.head? with
      | none => none
      | some l2 =>
        if l1 ≠ [] ∧ isEqualsLine l2 then some (stripWs l1) else firstMatchScan rest1

def extract_title_first_match_spec (content : String) : Option String :=
  (firstMatchScan (splitLines content.data)).map fun t => (⟨t⟩ : String)

lemma setextScan_eq_zip (ls : List (List Char)) :
    setextScan ls = (ls.zip ls.tail).findSome?
      (fun p => if p.1 ≠ [] ∧ isEqualsLine p.2 then some (stripWs p.1) else none) := by
  induction ls with
  | nil => simp [setextScan]
  | cons l1 rest ih =>
    cases rest with
    | nil => simp [setextScan]
    | cons l2 rest2 =>
      by_cases hc : l1 ≠ [] ∧ isEqualsLine l2
      · simp [setextScan, hc]
      · have hl : setextScan (l1 :: l2 :: rest2) = setextScan (l2 :: rest2) := by
          simp [setextScan, hc]
        rw [hl, ih]
        simp [hc]

lemma dropWhile_length_le {α : Type} (p : α → Bool) (l : List α) :
    (l.dropWhile p).length ≤ l.length := by
  induction l with
  | nil => simp
  | cons a rest ih =>
    by_cases h : p a <;> simp [List.dropWhile_cons, h] <;> omega

lemma skipLine_length_le (c : Char) (cs : List Char) :
    (skipLine (c :: cs)).length ≤ cs.length := by
  unfold skipLine
  have h1 : ((c :: cs).dropWhile (fun x => x != '\n')).length ≤ cs.length + 1 := by
    simpa using dropWhile_length_le (fun x => x != '\n') (c :: cs)
  rw [List.length_drop]
  omega

lemma atxScanFuel_irrel (fuel1 : Nat) :
    ∀ (fuel2 : Nat) (l : List Char), l.length ≤ fuel1 → l.length ≤ fuel2 →
      atxScanFuel fuel1 l = atxScanFuel fuel2 l := by
  induction fuel1 using Nat.strong_induction_on with
  | _ fuel1 ih =>
    intro fuel2 l h1 h2
    cases l with
    | nil => cases fuel1 <;> cases fuel2 <;> simp [atxScanFuel]
    | cons c r =>
      cases fuel1 with
      | zero => simp at h1
      | succ f1 =>
        cases fuel2 with
        | zero => simp at h2
        | succ f2 =>
          simp only [List.length_cons] at h1 h2
          have hskip : (skipLine (c :: r)).length ≤ r.length := skipLine_length_le c r
          have hrec : atxScanFuel f1 (skipLine (c :: r))
              = atxScanFuel f2 (skipLine (c :: r)) :=
            ih f1 (by omega) f2 (skipLine (c :: r)) (by omega) (by omega)
          simp only [atxScanFuel]
          by_cases hc : c = '#'
          · subst hc
            cases hm : atxMatchAt r <;> simp [hm, hrec]
          · simp [hc, hrec]

/-- The recurrence of the ATX search: line starts tried in order, first
successful attempt wins. -/
lemma atxSearch_cons (c : Char) (r : List Char) :
    atxSearch (c :: r)
      = if c = '#' then
          match atxMatchAt r with
          | some t => some t
          | none => atxSearch (skipLine (c :: r))
        else atxSearch (skipLine (c :: r)) := by
  unfold atxSearch
  have hrec : atxScanFuel r.length (skipLine (c :: r))
      = atxScanFuel (skipLine (c :: r)).length (skipLine (c :: r)) :=
    atxScanFuel_irrel r.length (skipLine (c :: r)).length (skipLine (c :: r))
      (skipLine_length_le c r) (le_refl _)
  simp only [List.length_cons, atxScanFuel]
  by_cases hc : c = '#'
  · subst hc
    cases hm : atxMatchAt r <;> simp [hm, hrec]
  · simp [hc, hrec]

/-! ### Claim C5 (corrected) -/

/-- C5 counterexample: on content whose Setext heading precedes its ATX
heading, the code returns the ATX title, not the first heading in the
text; so the first match does not win. -/
theorem claim_C5_counterexample :
    extract_title_from_markdown "T\n=\n# A" = some "A"
  ∧ extract_title_first_match_spec "T\n=\n# A" = some "T"
  ∧ extract_title_from_markdown "T\n=\n# A" ≠ extract_title_first_match_spec "T\n=\n# A" := by
  refine ⟨by decide, by decide, by decide⟩

/-- C5 amended: title extraction returns the result of the MULTILINE
ATX search whenever it matches anywhere in the content — the search
tries each line start in order (the recurrence in the third conjunct)
and its per-position outcome is `atxMatchAt`, under which the
whitespace after `#` may span newlines; a Setext heading (the first
nonempty line immediately followed by an equals-sign line) is used only
when the ATX search finds nothing; with neither, the result is none and
the rendered title falls back to the configured default string. -/
theorem claim_C5_title_extraction (content fallback : String) :
    (∀ t, atxSearch content.data = some t →
        extract_title_from_markdown content = some ⟨t⟩)
  ∧ (atxSearch content.data = none →
        extract_title_from_markdown content
          = (((splitLines content.data).zip (splitLines content.data).tail).findSome?
              (fun p => if p.1 ≠ [] ∧ isEqualsLine p.2 then some (stripWs p.1) else none)).map
              (fun l => (⟨l⟩ : String)))
  ∧ (∀ (c : Char) (r : List Char),
        atxSearch (c :: r)
          = if c = '#' then
              match atxMatchAt r with
              | some t => some t
              | none => atxSearch (skipLine (c :: r))
            else atxSearch (skipLine (c :: r)))
  ∧ (extract_title_from_markdown content = none →
        title_for_render content fallback = fallback) := by
  refine ⟨fun t h => ?_, fun h => ?_, atxSearch_cons, fun h => ?_⟩
  · unfold extract_title_from_markdown
    rw [h]
  · unfold extract_title_from_markdown
    rw [h, setextScan_eq_zip]
  · unfold title_for_render
    rw [h]

/-- C5 witness: content with no heading yields no title and the renderer
falls back to the configured default. -/
theorem claim_C5_witness :
    title_for_render "plain text only" "Document" = "Document" :=
  (claim_C5_title_extraction "plain text only" "Document").2.2.2 (by decide)

/-! ### bookbuilder/utils.py: deep_merge (lines 46 to 63)

Python dictionaries are modelled as ordered association lists of
`String × JVal` (keys unique, as in a dict); non-dict JSON values are
collapsed into `JVal.atom`.  `setKey` models `result[key] = value`
(update in place, else append), `lookupVal` models `key in result` plus
`result[key]`.  The embedding is purely functional: like the code, which
starts from `base.copy()` and builds fresh merged sub-dicts, it reads but
never writes its arguments. -/

inductive JVal where
  | atom : String → JVal
  | dict : List (String × JVal) → JVal

def isDict : JVal → Bool
  | JVal.dict _ => true
  | _ => false

def lookupVal : List (String × JVal) → String → Option JVal
  | [], _ => none
  | (k', v') :: rest, k => if k' = k then some v' else lookupVal rest k

def setKey : List (String × JVal) → String → JVal → List (String × JVal)
  | [], k, v => [(k, v)]
  | (k', v') :: rest, k, v => if k' = k then (k', v) :: rest else (k', v') :: setKey rest k v

def deep_merge : List (String × JVal) → List (String × JVal) → List (String × JVal)
  | result, [] => result
  | result, (k, v) :: rest =>
    match v, lookupVal result k with
    | JVal.dict o, some (JVal.dict b) =>
      deep_merge (setKey result k (JVal.dict (deep_merge b o))) rest
    | _, _ => deep_merge (setKey result k v) rest
termination_by result ov => sizeOf ov
decreasing_by
  all_goals simp_wf <;> omega

lemma lookupVal_setKey_self (r : List (String × JVal)) (k : String) (v : JVal) :
    lookupVal (setKey r k v) k = some v := by
  induction r with
  | nil => simp [setKey, lookupVal]
  | cons hd rest ih =>
    obtain ⟨k', v'⟩ := hd
    by_cases h : k' = k <;> simp [setKey, lookupVal, h, ih]

lemma lookupVal_setKey_ne (r : List (String × JVal)) (k' k : String) (v : JVal)
    (h : k' ≠ k) : lookupVal (setKey r k' v) k = lookupVal r k := by
  induction r with
  | nil => simp [setKey, lookupVal, h]
  | cons hd rest ih =>
    obtain ⟨k1, v1⟩ := hd
    by_cases h1 : k1 = k' <;> by_cases h2 : k1 = k <;>
      simp_all [setKey, lookupVal]

lemma lookupVal_eq_none (r : List (String × JVal)) (k : String)
    (h : k ∉ r.map Prod.fst) : lookupVal r k = none := by
  induction r with
  | nil => simp [lookupVal]
  | cons hd rest ih =>
    obtain ⟨k1, v1⟩ := hd
    simp only [List.map_cons, List.mem_cons] at h
    push_neg at h
    simp [lookupVal, Ne.symm h.1, ih h.2]

/-- The key-by-key description of `deep_merge`, generalised over the
accumulated result. -/
lemma deep_merge_lookup (ov : List (String × JVal)) (hov : (ov.map Prod.fst).Nodup)
    (r : List (String × JVal)) (k : String) :
    lookupVal (deep_merge r ov) k =
      match lookupVal ov k, lookupVal r k with
      | none, x => x
      | some (JVal.dict o), some (JVal.dict b) => some (JVal.dict (deep_merge b o))
      | some v, _ => some v := by
  induction ov generalizing r with
  | nil => simp [deep_merge, lookupVal]
  | cons hd rest ih =>
    obtain ⟨k1, v1⟩ := hd
    simp only [List.map_cons, List.nodup_cons] at hov
    obtain ⟨hk1, hrest⟩ := hov
    have hnone : lookupVal rest k1 = none := lookupVal_eq_none rest k1 hk1
    have hne : ∀ w, k1 ≠ k → lookupVal (setKey r k1 w) k = lookupVal r k :=
      fun w hk => lookupVal_setKey_ne r k1 k w hk
    cases v1 with
    | atom s =>
      have hstep : deep_merge r ((k1, JVal.atom s) :: rest)
          = deep_merge (setKey r k1 (JVal.atom s)) rest :=
        deep_merge.eq_3 r k1 rest (JVal.atom s) (fun o b h1 _ => JVal.noConfusion h1)
      rw [hstep, ih hrest]
      by_cases hk : k1 = k
      · subst hk
        simp [lookupVal, hnone, lookupVal_setKey_self]
      · simp [lookupVal, hk, hne _ hk]
    | dict o =>
      cases hb : lookupVal r k1 with
      | none =>
        have hstep : deep_merge r ((k1, JVal.dict o) :: rest)
            = deep_merge (setKey r k1 (JVal.dict o)) rest :=
          deep_merge.eq_3 r k1 rest (JVal.dict o)
            (fun o' b _ h2 => by rw [hb] at h2; exact Option.noConfusion h2)
        rw [hstep, ih hrest]
        by_cases hk : k1 = k
        · subst hk
          simp [lookupVal, hnone, lookupVal_setKey_self, hb]
        · simp [lookupVal, hk, hne _ hk]
      | some w =>
        cases w with
        | atom s =>
          have hstep : deep_merge r ((k1, JVal.dict o) :: rest)
              = deep_merge (setKey r k1 (JVal.dict o)) rest :=
            deep_merge.eq_3 r k1 rest (JVal.dict o)
              (fun o' b _ h2 => by rw [hb] at h2; simp at h2)
          rw [hstep, ih hrest]
          by_cases hk : k1 = k
          · subst hk
            simp [lookupVal, hnone, lookupVal_setKey_self, hb]
          · simp [lookupVal, hk, hne _ hk]
        | dict b =>
          have hstep : deep_merge r ((k1, JVal.dict o) :: rest)
              = deep_merge (setKey r k1 (JVal.dict (deep_merge b o))) rest :=
            deep_merge.eq_2 r k1 rest o b hb
          rw [hstep, ih hrest]
          by_cases hk : k1 = k
          · subst hk
            simp [lookupVal, hnone, lookupVal_setKey_self, hb]
          · simp [lookupVal, hk, hne _ hk]

/-! ### Claim C10 -/

/-- C10: `deep_merge` is a pure value-to-value map (the embedding, like
the code, never writes into either argument): for a key whose values in
both inputs are dictionaries the result holds their recursive merge; for
every other key present in the override the override value is taken; and
a key present only in the base keeps the base value. -/
theorem claim_C10_deep_merge (base override : List (String × JVal))
    (hkeys : (override.map Prod.fst).Nodup) (k : String) :
    (∀ b o, lookupVal base k = some (JVal.dict b) →
        lookupVal override k = some (JVal.dict o) →
        lookupVal (deep_merge base override) k = some (JVal.dict (deep_merge b o)))
  ∧ (∀ v, lookupVal override k = some v →
        (isDict v = false ∨ ∀ b, lookupVal base k ≠ some (JVal.dict b)) →
        lookupVal (deep_merge base override) k = some v)
  ∧ (lookupVal override k = none →
        lookupVal (deep_merge base override) k = lookupVal base k) := by
  refine ⟨fun b o hb ho => ?_, fun v hv hcond => ?_, fun hnone => ?_⟩
  · rw [deep_merge_lookup override hkeys base k, ho, hb]
  · rw [deep_merge_lookup override hkeys base k, hv]
    cases v with
    | atom s =>
      cases hbase : lookupVal base k with
      | none => rfl
      | some w => cases w <;> rfl
    | dict o =>
      rcases hcond with hcond | hcond
      · simp [isDict] at hcond
      · cases hbase : lookupVal base k with
        | none => rfl
        | some w =>
          cases w with
          | atom s => rfl
          | dict b => exact absurd hbase (hcond b)
  · rw [deep_merge_lookup override hkeys base k, hnone]

/-- C10 witness: a nested dictionary key is recursively merged when it is
a dictionary in both inputs. -/
theorem claim_C10_witness :
    lookupVal
      (deep_merge
        [("a", JVal.atom "1"), ("n", JVal.dict [("x", JVal.atom "2")])]
        [("n", JVal.dict [("y", JVal.atom "3")]), ("b", JVal.atom "4")])
      "n"
    = some (JVal.dict (deep_merge [("x", JVal.atom "2")] [("y", JVal.atom "3")])) :=
  (claim_C10_deep_merge
      [("a", JVal.atom "1"), ("n", JVal.dict [("x", JVal.atom "2")])]
      [("n", JVal.dict [("y", JVal.atom "3")]), ("b", JVal.atom "4")]
      (by simp) "n").1
    [("x", JVal.atom "2")] [("y", JVal.atom "3")] (by rfl) (by rfl)

/-! ### bookbuilder/combine.py: build_book chapter pass (lines 609 to 644)

`safe_get_page_count` is modelled over a probe `pageOf : String → Option
Nat`; `none` means the PDF reader raised, in which case the function
returns 0 (and logs a warning).  `getPdf f` models the composite of
`get_pdf_for_file` and the `os.path.exists` check in the loop: the usable
PDF path for source file `f`, or `none` when the file is missing or
fails conversion. -/

/-- combine.py lines 44 to 65: page count of a PDF, 0 when unreadable. -/
def safe_get_page_count (pageOf : String → Option Nat) (p : String) : Nat :=
  (pageOf p).getD 0

structure ChapterInfo where
  sectionName : String
  page : Nat
  files : Nat
deriving DecidableEq

/-- The chapter loop of `build_book`: before each chapter its starting
page is one plus the page counts of all PDFs placed so far; chapters with
no usable files are skipped entirely. -/
def chaptersLoop (getPdf : String → Option String) (pageOf : String → Option Nat) :
    List (String × List String) → List String → List ChapterInfo →
    List String × List ChapterInfo
  | [], ordered_pdfs, chapter_info => (ordered_pdfs, chapter_info)
  | (section_name, files) :: rest, ordered_pdfs, chapter_info =>
    let page_start := (ordered_pdfs.map (safe_get_page_count pageOf)).sum
    let chapter_pdfs := files.filterMap getPdf
    if chapter_pdfs.isEmpty then
      chaptersLoop getPdf pageOf rest ordered_pdfs chapter_info
    else
      chaptersLoop getPdf pageOf rest (ordered_pdfs ++ chapter_pdfs)
        (chapter_info ++ [⟨section_name, page_start + 1, chapter_pdfs.length⟩])

def processChapters (getPdf : String → Option String) (pageOf : String → Option Nat)
    (chapters : List (String × List String)) : List String × List ChapterInfo :=
  chaptersLoop getPdf pageOf chapters [] []

/-- combine.py lines 638 to 644: the fixed shift added to every starting
page after the main pass, front-cover page count (0 without a front
cover) plus one TOC page. -/
def frontMatterOffset (pageOf : String → Option Nat) (front_cover : Option String) : Nat :=
  (match front_cover with
   | some fc => safe_get_page_count pageOf fc
   | none => 0) + 1

/-- combine.py lines 643 to 644: `chapter['page'] += offset`. -/
def applyOffset (offset : Nat) (chapter_info : List ChapterInfo) : List ChapterInfo :=
  chapter_info.map fun ci => { ci with page := ci.page + offset }

/-- Pages contributed by one chapter: page counts of its usable PDFs. -/
def chapterPages (getPdf : String → Option String) (pageOf : String → Option Nat)
    (c : String × List String) : Nat :=
  ((c.2.filterMap getPdf).map (safe_get_page_count pageOf)).sum

/-- The chapter infos the loop produces when every chapter keeps at least
one PDF, starting from `base` already-placed pages. -/
def expectedInfos (getPdf : String → Option String) (pageOf : String → Option Nat)
    (base : Nat) : List (String × List String) → List ChapterInfo
  | [] => []
  | c :: rest =>
    ⟨c.1, base + 1, (c.2.filterMap getPdf).length⟩ ::
      expectedInfos getPdf pageOf (base + chapterPages getPdf pageOf c) rest

lemma chaptersLoop_spec (getPdf : String → Option String) (pageOf : String → Option Nat)
    (cs : List (String × List String)) (h : ∀ c ∈ cs, c.2.filterMap getPdf ≠ [])
    (pdfs : List String) (infos : List ChapterInfo) :
    chaptersLoop getPdf pageOf cs pdfs infos =
      (pdfs ++ (cs.map fun c => c.2.filterMap getPdf).flatten,
       infos ++ expectedInfos getPdf pageOf
         ((pdfs.map (safe_get_page_count pageOf)).sum) cs) := by
  induction cs generalizing pdfs infos with
  | nil => simp [chaptersLoop, expectedInfos]
  | cons c rest ih =>
    obtain ⟨name, files⟩ := c
    have hne : files.filterMap getPdf ≠ [] := h (name, files) (by simp)
    have hrest : ∀ c ∈ rest, c.2.filterMap getPdf ≠ [] :=
      fun c hc => h c (List.mem_cons_of_mem _ hc)
    simp only [chaptersLoop, List.isEmpty_iff, hne, if_false]
    rw [ih hrest]
    simp [expectedInfos, chapterPages, List.map_append, List.sum_append,
      List.append_assoc]

lemma expectedInfos_length (getPdf : String → Option String) (pageOf : String → Option Nat)
    (base : Nat) (cs : List (String × List String)) :
    (expectedInfos getPdf pageOf base cs).length = cs.length := by
  induction cs generalizing base with
  | nil => simp [expectedInfos]
  | cons c rest ih => simp [expectedInfos, ih]

lemma expectedInfos_getElem? (getPdf : String → Option String) (pageOf : String → Option Nat)
    (base : Nat) (cs : List (String × List String)) (i : Nat) (hi : i < cs.length) :
    (expectedInfos getPdf pageOf base cs)[i]? =
      some ⟨(cs.get ⟨i, hi⟩).1,
            base + ((cs.take i).map (chapterPages getPdf pageOf)).sum + 1,
            ((cs.get ⟨i, hi⟩).2.filterMap getPdf).length⟩ := by
  induction cs generalizing base i with
  | nil => simp at hi
  | cons c rest ih =>
    cases i with
    | zero => simp [expectedInfos]
    | succ j =>
      have hj : j < rest.length := by simpa using hi
      simp only [expectedInfos, List.getElem?_cons_succ, List.get_cons_succ]
      rw [ih (base + chapterPages getPdf pageOf c) j hj]
      simp only [List.take_succ_cons, List.map_cons, List.sum_cons]
      have harith : base + chapterPages getPdf pageOf c
            + ((rest.take j).map (chapterPages getPdf pageOf)).sum + 1
          = base + (chapterPages getPdf pageOf c
            + ((rest.take j).map (chapterPages getPdf pageOf)).sum) + 1 := by omega
      rw [harith]

lemma applyOffset_getElem? (offset : Nat) (l : List ChapterInfo) (i : Nat) :
    (applyOffset offset l)[i]? = l[i]?.map fun ci => { ci with page := ci.page + offset } := by
  simp [applyOffset]

/-! ### Claim C2 -/

/-- C2: when every chapter has at least one usable PDF, the starting page
recorded for chapter i equals 1 plus the sum of the page counts of all
PDFs placed in earlier chapters, and after the main pass every starting
page is increased by exactly the front-matter offset (front-cover pages
plus one TOC page). -/
theorem claim_C2_page_offsets (getPdf : String → Option String) (pageOf : String → Option Nat)
    (cs : List (String × List String)) (h : ∀ c ∈ cs, c.2.filterMap getPdf ≠ [])
    (front_cover : Option String) (i : Nat) (hi : i < cs.length) :
    (processChapters getPdf pageOf cs).2[i]?
      = some ⟨(cs.get ⟨i, hi⟩).1,
              1 + ((cs.take i).map (chapterPages getPdf pageOf)).sum,
              ((cs.get ⟨i, hi⟩).2.filterMap getPdf).length⟩
  ∧ (applyOffset (frontMatterOffset pageOf front_cover)
        (processChapters getPdf pageOf cs).2)[i]?
      = some ⟨(cs.get ⟨i, hi⟩).1,
              1 + ((cs.take i).map (chapterPages getPdf pageOf)).sum
                + frontMatterOffset pageOf front_cover,
              ((cs.get ⟨i, hi⟩).2.filterMap getPdf).length⟩ := by
  have key := chaptersLoop_spec getPdf pageOf cs h [] []
  have hmain : (processChapters getPdf pageOf cs).2[i]?
      = some ⟨(cs.get ⟨i, hi⟩).1,
              1 + ((cs.take i).map (chapterPages getPdf pageOf)).sum,
              ((cs.get ⟨i, hi⟩).2.filterMap getPdf).length⟩ := by
    unfold processChapters
    rw [key]
    simp only [List.nil_append, List.map_nil, List.sum_nil]
    rw [expectedInfos_getElem? getPdf pageOf 0 cs i hi]
    have harith : (0 : Nat) + ((cs.take i).map (chapterPages getPdf pageOf)).sum + 1
        = 1 + ((cs.take i).map (chapterPages getPdf pageOf)).sum := by omega
    rw [harith]
  refine ⟨hmain, ?_⟩
  rw [applyOffset_getElem?, hmain]
  rfl

/-- C2 witness: three chapters of 5, 7 and 3 pages behind a 2-page front
cover; chapter 2 is reported to start at page 1 + 5 + (2 + 1) = 9. -/
theorem claim_C2_witness :
    (applyOffset
        (frontMatterOffset
          (fun s => if s = "a" then some 5 else if s = "b" then some 7
                    else if s = "c" then some 3 else some 2)
          (some "fc"))
        (processChapters (fun f => some f)
          (fun s => if s = "a" then some 5 else if s = "b" then some 7
                    else if s = "c" then some 3 else some 2)
          [("Ch1", ["a"]), ("Ch2", ["b"]), ("Ch3", ["c"])]).2)[1]?
      = some ⟨"Ch2", 9, 1⟩ := by
  have h := (claim_C2_page_offsets (fun f => some f)
      (fun s => if s = "a" then some 5 else if s = "b" then some 7
                else if s = "c" then some 3 else some 2)
      [("Ch1", ["a"]), ("Ch2", ["b"]), ("Ch3", ["c"])]
      (by decide) (some "fc") 1 (by decide)).2
  rw [h]
  decide

/-! ### Claim C8 -/

lemma chaptersLoop_drop (getPdf : String → Option String) (pageOf : String → Option Nat)
    (pre post : List (String × List String)) (name : String) (files : List String)
    (hempty : files.filterMap getPdf = []) (pdfs : List String) (infos : List ChapterInfo) :
    chaptersLoop getPdf pageOf (pre ++ (name, files) :: post) pdfs infos
      = chaptersLoop getPdf pageOf (pre ++ post) pdfs infos := by
  induction pre generalizing pdfs infos with
  | nil => simp [chaptersLoop, hempty]
  | cons c rest ih =>
    obtain ⟨n2, f2⟩ := c
    simp only [List.cons_append, chaptersLoop]
    by_cases he : (f2.filterMap getPdf).isEmpty <;> simp [he, ih]

/-- C8: a manifest chapter that resolves to zero usable files is dropped
entirely: the chapter pass produces the same ordered PDF list and the
same chapter-info list (hence the same bookmarks and the same page
offsets for later chapters) as if the chapter were absent. -/
theorem claim_C8_empty_chapter_dropped (getPdf : String → Option String)
    (pageOf : String → Option Nat) (pre post : List (String × List String))
    (name : String) (files : List String) (hempty : files.filterMap getPdf = []) :
    processChapters getPdf pageOf (pre ++ (name, files) :: post)
      = processChapters getPdf pageOf (pre ++ post) :=
  chaptersLoop_drop getPdf pageOf pre post name files hempty [] []

/-- C8 witness: a chapter whose only file has no usable PDF vanishes from
the build. -/
theorem claim_C8_witness :
    processChapters (fun f => if f = "z" then none else some f) (fun _ => some 4)
        ([("A", ["x"])] ++ ("Empty", ["z"]) :: [("B", ["y"])])
      = processChapters (fun f => if f = "z" then none else some f) (fun _ => some 4)
        ([("A", ["x"])] ++ [("B", ["y"])]) :=
  claim_C8_empty_chapter_dropped (fun f => if f = "z" then none else some f)
    (fun _ => some 4) [("A", ["x"])] [("B", ["y"])] "Empty" ["z"] (by decide)

/-! ### bookbuilder/combine.py: combine_pdfs_with_bookmarks (lines 283 to 357)

The PyPDF2 merger is modelled as an event trace: one `appendDoc` event
per `merger.append` call and one `outline` event per
`merger.add_outline_item` call.  `safe_get_page_count` probes are the
`pageOf` function; a `none` probe logs a warning (collected in order) and
counts as 0 pages, and the file is appended all the same.  The merge
library itself is assumed not to raise, so the `try` blocks around the
appends reduce to the appends. -/

inductive MergeEvent where
  | appendDoc : String → MergeEvent
  | outline : String → Nat → MergeEvent
deriving DecidableEq

structure MergeSt where
  events : List MergeEvent
  warnings : List String
  currentPage : Nat
deriving DecidableEq

/-- One `merger.append(pdf)` together with its page-count probe: the
document is appended regardless of readability, the count (0 when
unreadable) advances the running page, an unreadable probe is warned. -/
def appendPdf (pageOf : String → Option Nat) (st : MergeSt) (pdf : String) : MergeSt :=
  { events := st.events ++ [MergeEvent.appendDoc pdf],
    warnings := st.warnings ++ (if (pageOf pdf).isNone then [pdf] else []),
    currentPage := st.currentPage + safe_get_page_count pageOf pdf }

/-- The inner `for _ in range(chapter['files'])` loop with its
`pdf_index < len(pdf_list)` guard: consumes up to its quota of the
remaining PDFs. -/
def chapterFilesLoop (pageOf : String → Option Nat) :
    Nat → List String → MergeSt → MergeSt × List String
  | 0, rem, st => (st, rem)
  | n + 1, [], st => chapterFilesLoop pageOf n [] st
  | n + 1, pdf :: rem, st => chapterFilesLoop pageOf n rem (appendPdf pageOf st pdf)

/-- The per-chapter loop of the merge: one outline entry at the current
page, then the chapter's quota of content PDFs. -/
def chaptersMergeLoop (pageOf : String → Option Nat) :
    List ChapterInfo → List String → MergeSt → MergeSt × List String
  | [], rem, st => (st, rem)
  | ch :: rest, rem, st =>
    let st1 : MergeSt := { st with
      events := st.events ++ [MergeEvent.outline ch.sectionName st.currentPage] }
    let stp := chapterFilesLoop pageOf ch.files rem st1
    chaptersMergeLoop pageOf rest stp.2 stp.1

def combine_pdfs_with_bookmarks (isFile : String → Bool) (pageOf : String → Option Nat)
    (pdf_list : List String) (chapter_info : List ChapterInfo)
    (toc_pdf : String) (front_cover back_cover : Option String) : MergeSt :=
  let st0 : MergeSt := ⟨[], [], 0⟩
  let st1 := match front_cover with
    | some fc => if isFile fc then appendPdf pageOf st0 fc else st0
    | none => st0
  let st2 := appendPdf pageOf st1 toc_pdf
  let st3 := (chaptersMergeLoop pageOf chapter_info pdf_list st2).1
  match back_cover with
  | some bc =>
    if isFile bc then
      { st3 with
        events := st3.events ++ [MergeEvent.appendDoc bc],
        warnings := st3.warnings ++ (if (pageOf bc).isNone then [bc] else []) }
    else st3
  | none => st3

/-- The cover document actually attached for an optional cover path:
present and a file, or nothing. -/
def coverDocs (isFile : String → Bool) : Option String → List String
  | some fc => if isFile fc then [fc] else []
  | none => []

/-- The event block of the chapter loop: per chapter one outline entry at
the page where its first PDF begins, then its content PDFs in order. -/
def expectedChapterEvents (pageOf : String → Option Nat) :
    Nat → List (ChapterInfo × List String) → List MergeEvent
  | _, [] => []
  | base, (ci, chunk) :: rest =>
    (MergeEvent.outline ci.sectionName base :: chunk.map MergeEvent.appendDoc)
      ++ expectedChapterEvents pageOf
          (base + (chunk.map (safe_get_page_count pageOf)).sum) rest

lemma chapterFilesLoop_chunk (pageOf : String → Option Nat) (chunk rem : List String)
    (st : MergeSt) :
    chapterFilesLoop pageOf chunk.length (chunk ++ rem) st
      = ({ events := st.events ++ chunk.map MergeEvent.appendDoc,
           warnings := st.warnings ++ chunk.filter (fun p => (pageOf p).isNone),
           currentPage := st.currentPage + (chunk.map (safe_get_page_count pageOf)).sum },
         rem) := by
  induction chunk generalizing st with
  | nil => simp [chapterFilesLoop]
  | cons p rest ih =>
    simp only [List.length_cons, List.cons_append, List.append_eq, chapterFilesLoop]
    rw [ih]
    by_cases hw : (pageOf p).isNone <;>
      simp [appendPdf, hw, List.append_assoc, List.filter_cons, Nat.add_assoc]

lemma chaptersMergeLoop_chunks (pageOf : String → Option Nat)
    (chs : List (ChapterInfo × List String)) (h : ∀ p ∈ chs, p.1.files = p.2.length)
    (rem : List String) (st : MergeSt) :
    chaptersMergeLoop pageOf (chs.map Prod.fst) ((chs.map Prod.snd).flatten ++ rem) st
      = ({ events := st.events ++ expectedChapterEvents pageOf st.currentPage chs,
           warnings := st.warnings
             ++ (chs.map Prod.snd).flatten.filter (fun p => (pageOf p).isNone),
           currentPage := st.currentPage
             + ((chs.map Prod.snd).flatten.map (safe_get_page_count pageOf)).sum },
         rem) := by
  induction chs generalizing st with
  | nil => simp [chaptersMergeLoop, expectedChapterEvents]
  | cons pr rest ih =>
    obtain ⟨ci, chunk⟩ := pr
    have hfiles : ci.files = chunk.length := h (ci, chunk) (by simp)
    have hrest : ∀ p ∈ rest, p.1.files = p.2.length :=
      fun p hp => h p (List.mem_cons_of_mem _ hp)
    simp only [List.map_cons, List.flatten_cons, chaptersMergeLoop, hfiles]
    rw [List.append_assoc, chapterFilesLoop_chunk]
    rw [ih hrest]
    simp [expectedChapterEvents, List.append_assoc, List.filter_append,
      List.map_append, List.sum_append, Nat.add_assoc]

lemma chaptersMergeLoop_chunks_nil (pageOf : String → Option Nat)
    (chs : List (ChapterInfo × List String)) (h : ∀ p ∈ chs, p.1.files = p.2.length)
    (st : MergeSt) :
    chaptersMergeLoop pageOf (chs.map Prod.fst) (chs.map Prod.snd).flatten st
      = ({ events := st.events ++ expectedChapterEvents pageOf st.currentPage chs,
           warnings := st.warnings
             ++ (chs.map Prod.snd).flatten.filter (fun p => (pageOf p).isNone),
           currentPage := st.currentPage
             + ((chs.map Prod.snd).flatten.map (safe_get_page_count pageOf)).sum },
         []) := by
  have := chaptersMergeLoop_chunks pageOf chs h [] st
  simpa using this

lemma mem_expectedChapterEvents (pageOf : String → Option Nat) (p : String)
    (chs : List (ChapterInfo × List String)) (base : Nat)
    (hp : p ∈ (chs.map Prod.snd).flatten) :
    MergeEvent.appendDoc p ∈ expectedChapterEvents pageOf base chs := by
  induction chs generalizing base with
  | nil => simp at hp
  | cons pr rest ih =>
    obtain ⟨ci, chunk⟩ := pr
    simp only [List.map_cons, List.flatten_cons, List.mem_append] at hp
    rcases hp with hp | hp
    · simp only [expectedChapterEvents, List.mem_append, List.mem_cons, List.mem_map]
      exact Or.inl (Or.inr ⟨p, hp, rfl⟩)
    · simp only [expectedChapterEvents, List.mem_append]
      exact Or.inr (ih _ hp)

/-- The events of one optional cover append. -/
lemma single_warn_filter (pageOf : String → Option Nat) (x : String) :
    (if (pageOf x).isNone then [x] else [])
      = [x].filter (fun p => (pageOf p).isNone) := by
  by_cases h : (pageOf x).isNone <;> simp [h]

lemma filter_decomp (pred : String → Bool) (front : List String) (toc : String)
    (content back : List String) :
    (front ++ toc :: (content ++ back)).filter pred
      = front.filter pred
        ++ ([toc].filter pred ++ (content.filter pred ++ back.filter pred)) := by
  by_cases hp : pred toc <;> simp [List.filter_append, List.filter_cons, hp]

/-! ### Claim C3 -/

/-- C3: the merge appends, in order, the front cover (when present and a
file), the TOC, each chapter's content PDFs in manifest order with
exactly one outline entry per chapter placed at the page where that
chapter's first PDF begins, then the back cover (when present and a
file); its warnings are exactly the probed documents whose page count
cannot be read (each counted as 0 pages); and every content PDF is
appended, readable or not, rather than dropped. -/
theorem claim_C3_merge_structure (isFile : String → Bool) (pageOf : String → Option Nat)
    (chs : List (ChapterInfo × List String)) (h : ∀ p ∈ chs, p.1.files = p.2.length)
    (toc_pdf : String) (front_cover back_cover : Option String) :
    (combine_pdfs_with_bookmarks isFile pageOf (chs.map Prod.snd).flatten
        (chs.map Prod.fst) toc_pdf front_cover back_cover).events
      = (coverDocs isFile front_cover).map MergeEvent.appendDoc
        ++ [MergeEvent.appendDoc toc_pdf]
        ++ expectedChapterEvents pageOf
             (((coverDocs isFile front_cover).map (safe_get_page_count pageOf)).sum
               + safe_get_page_count pageOf toc_pdf) chs
        ++ (coverDocs isFile back_cover).map MergeEvent.appendDoc
  ∧ (combine_pdfs_with_bookmarks isFile pageOf (chs.map Prod.snd).flatten
        (chs.map Prod.fst) toc_pdf front_cover back_cover).warnings
      = (coverDocs isFile front_cover
          ++ toc_pdf :: ((chs.map Prod.snd).flatten ++ coverDocs isFile back_cover)).filter
          (fun p => (pageOf p).isNone)
  ∧ ∀ p ∈ (chs.map Prod.snd).flatten,
      MergeEvent.appendDoc p
        ∈ (combine_pdfs_with_bookmarks isFile pageOf (chs.map Prod.snd).flatten
            (chs.map Prod.fst) toc_pdf front_cover back_cover).events := by
  have hev : (combine_pdfs_with_bookmarks isFile pageOf (chs.map Prod.snd).flatten
        (chs.map Prod.fst) toc_pdf front_cover back_cover).events
      = (coverDocs isFile front_cover).map MergeEvent.appendDoc
        ++ [MergeEvent.appendDoc toc_pdf]
        ++ expectedChapterEvents pageOf
             (((coverDocs isFile front_cover).map (safe_get_page_count pageOf)).sum
               + safe_get_page_count pageOf toc_pdf) chs
        ++ (coverDocs isFile back_cover).map MergeEvent.appendDoc := by
    cases front_cover with
    | none =>
      cases back_cover with
      | none =>
        simp only [combine_pdfs_with_bookmarks]
        rw [chaptersMergeLoop_chunks_nil pageOf chs h]
        simp [appendPdf, coverDocs, List.append_assoc]
      | some bc =>
        by_cases hb : isFile bc <;>
          (simp only [combine_pdfs_with_bookmarks, hb, if_true, if_false]
           rw [chaptersMergeLoop_chunks_nil pageOf chs h]
           simp [appendPdf, coverDocs, hb, List.append_assoc])
    | some fc =>
      by_cases hf : isFile fc <;>
        cases back_cover with
        | none =>
          simp only [combine_pdfs_with_bookmarks, hf, if_true, if_false]
          rw [chaptersMergeLoop_chunks_nil pageOf chs h]
          simp [appendPdf, coverDocs, hf, List.append_assoc]
        | some bc =>
          by_cases hb : isFile bc <;>
            (simp only [combine_pdfs_with_bookmarks, hf, hb, if_true, if_false]
             rw [chaptersMergeLoop_chunks_nil pageOf chs h]
             simp [appendPdf, coverDocs, hf, hb, List.append_assoc])
  have hw : (combine_pdfs_with_bookmarks isFile pageOf (chs.map Prod.snd).flatten
        (chs.map Prod.fst) toc_pdf front_cover back_cover).warnings
      = (coverDocs isFile front_cover
          ++ toc_pdf :: ((chs.map Prod.snd).flatten ++ coverDocs isFile back_cover)).filter
          (fun p => (pageOf p).isNone) := by
    rw [filter_decomp]
    cases front_cover with
    | none =>
      cases back_cover with
      | none =>
        simp only [combine_pdfs_with_bookmarks]
        rw [chaptersMergeLoop_chunks_nil pageOf chs h]
        simp [appendPdf, coverDocs, single_warn_filter, List.append_assoc, List.filter_cons, Option.isNone_iff_eq_none]
      | some bc =>
        by_cases hb : isFile bc <;>
          (simp only [combine_pdfs_with_bookmarks, hb, if_true, if_false]
           rw [chaptersMergeLoop_chunks_nil pageOf chs h]
           simp [appendPdf, coverDocs, hb, single_warn_filter, List.append_assoc, List.filter_cons, Option.isNone_iff_eq_none])
    | some fc =>
      by_cases hf : isFile fc <;>
        cases back_cover with
        | none =>
          simp only [combine_pdfs_with_bookmarks, hf, if_true, if_false]
          rw [chaptersMergeLoop_chunks_nil pageOf chs h]
          simp [appendPdf, coverDocs, hf, single_warn_filter, List.append_assoc, List.filter_cons, Option.isNone_iff_eq_none]
        | some bc =>
          by_cases hb : isFile bc <;>
            (simp only [combine_pdfs_with_bookmarks, hf, hb, if_true, if_false]
             rw [chaptersMergeLoop_chunks_nil pageOf chs h]
             simp [appendPdf, coverDocs, hf, hb, single_warn_filter, List.append_assoc, List.filter_cons, Option.isNone_iff_eq_none])
  refine ⟨hev, hw, fun p hp => ?_⟩
  rw [hev]
  have hm := mem_expectedChapterEvents pageOf p chs
    (((coverDocs isFile front_cover).map (safe_get_page_count pageOf)).sum
      + safe_get_page_count pageOf toc_pdf) hp
  simp [List.mem_append, hm]

/-- C3 witness: one front cover, one chapter of two PDFs of which the
second is unreadable: everything is appended in order, the outline entry
sits at the page after front cover and TOC, and the unreadable file is
warned about yet still appended. -/
theorem claim_C3_witness :
    (combine_pdfs_with_bookmarks (fun _ => true)
        (fun s => if s = "bad" then none else some 2)
        ([["u", "bad"]].flatten) [⟨"Ch1", 0, 2⟩] "toc" (some "fc") none).events
      = [MergeEvent.appendDoc "fc", MergeEvent.appendDoc "toc",
         MergeEvent.outline "Ch1" 4, MergeEvent.appendDoc "u", MergeEvent.appendDoc "bad"]
  ∧ (combine_pdfs_with_bookmarks (fun _ => true)
        (fun s => if s = "bad" then none else some 2)
        ([["u", "bad"]].flatten) [⟨"Ch1", 0, 2⟩] "toc" (some "fc") none).warnings
      = ["bad"] := by
  have h3 := claim_C3_merge_structure (fun _ => true)
    (fun s => if s = "bad" then none else some 2)
    [(⟨"Ch1", 0, 2⟩, ["u", "bad"])] (by decide) "toc" (some "fc") none
  have he := h3.1
  have hwr := h3.2.1
  simp only [List.map_cons, List.map_nil] at he hwr
  constructor
  · rw [he]
    decide
  · rw [hwr]
    decide

/-! ### bookbuilder/convert.py: convert_file (lines 476 to 541) and
convert_files_parallel (lines 544 to 622)

The converter environment bundles the filesystem, the WeasyPrint render
call (modelled as possibly raising, carrying the exception text), and
`os.path.relpath` as an opaque stdlib collaborator.  The rendering
internals (link rewriting, title extraction, templating) only feed the
renderer, so for the error-flow claims they live inside `render`. -/

def strToLower (s : String) : String := ⟨s.data.map asciiLower⟩

def dropRightStr (s : String) (n : Nat) : String := ⟨s.data.take (s.data.length - n)⟩

structure ConvEnv where
  fs : FS
  render : String → Except String Unit
  relpath : String → String → String

/-- convert.py lines 171 to 193: output PDF path mirroring the source
tree under the output directory. -/
def get_output_pdf_path (env : ConvEnv) (md_path root_dir output_dir : String) : String :=
  let rel_path := env.relpath md_path root_dir
  let rel_pdf_path := if strEndsWith rel_path ".md" then dropRightStr rel_path 3 ++ ".pdf"
                      else rel_path ++ ".pdf"
  joinPath output_dir rel_pdf_path

/-- convert.py lines 221 to 473, reduced to its cache and effect
structure: with a valid cached PDF return it unconverted; otherwise
render, which may raise. -/
def convert_markdown_to_pdf (env : ConvEnv) (md_path pdf_path : String) (force : Bool) :
    Except String (String × Bool) :=
  if ! is_conversion_needed env.fs md_path pdf_path force then Except.ok (pdf_path, false)
  else
    match env.render md_path with
    | Except.ok _ => Except.ok (pdf_path, true)
    | Except.error e => Except.error e

/-- The body of the `try` block of convert_file (convert.py lines 511 to
538); exceptions propagate as `Except.error`. -/
def convert_file_body (env : ConvEnv) (file_path root_dir output_dir : String)
    (force : Bool) : Except String (Option String × Bool × Option String) :=
  if strEndsWith (strToLower file_path) ".pdf" then
    if env.fs.pexists file_path then Except.ok (some file_path, false, none)
    else Except.ok (none, false, some ("PDF not found: " ++ file_path))
  else if strEndsWith (strToLower file_path) ".md" then
    if ! env.fs.pexists file_path then
      Except.ok (none, false, some ("MD file not found: " ++ file_path))
    else
      match convert_markdown_to_pdf env file_path
          (get_output_pdf_path env file_path root_dir output_dir) force with
      | Except.ok pw => Except.ok (some pw.1, pw.2, none)
      | Except.error e => Except.error e
  else Except.ok (none, false, some ("Unsupported file type: " ++ file_path))

/-- convert.py lines 476 to 541: the whole body runs inside
`try/except Exception`, so the function always returns a result tuple;
any exception becomes `(None, False, str(e))`. -/
def convert_file (env : ConvEnv) (file_path root_dir output_dir : String)
    (force : Bool) : Option String × Bool × Option String :=
  match convert_file_body env file_path root_dir output_dir force with
  | Except.ok r => r
  | Except.error e => (none, false, some e)

/-- The sequential markdown loop of convert_files_parallel (convert.py
lines 599 to 622): an error result only increments the failure tally;
a success appends the produced path (present whenever there is no error)
and counts the conversion. -/
def mdLoop (env : ConvEnv) (root_dir output_dir : String) (force : Bool) :
    List String → List String → Nat → Nat → List String × Nat × Nat
  | [], pdf_paths, converted, failed => (pdf_paths, converted, failed)
  | f :: rest, pdf_paths, converted, failed =>
    match convert_file env f root_dir output_dir force with
    | (_, _, some _) =>
      mdLoop env root_dir output_dir force rest pdf_paths converted (failed + 1)
    | (p, was_converted, none) =>
      mdLoop env root_dir output_dir force rest (pdf_paths ++ p.toList)
        (converted + if was_converted then 1 else 0) failed

/-- convert.py lines 544 to 622: existing PDFs pass through first (a
missing one counts as failed), then markdown files are converted one at
a time (the parallelism hint is a no-op). -/
def convert_files_parallel (env : ConvEnv) (file_paths : List String)
    (root_dir output_dir : String) (force : Bool) : List String × Nat × Nat :=
  let md_files := file_paths.filter (fun f => strEndsWith (strToLower f) ".md")
  let pdf_files := file_paths.filter (fun f => strEndsWith (strToLower f) ".pdf")
  let start := pdf_files.foldl
    (fun (acc : List String × Nat) p =>
      if env.fs.pexists p then (acc.1 ++ [p], acc.2) else (acc.1, acc.2 + 1))
    ([], 0)
  mdLoop env root_dir output_dir force md_files start.1 0 start.2

lemma mdLoop_failed_add (env : ConvEnv) (rd od : String) (force : Bool)
    (files : List String) (pdfs : List String) (conv fail : Nat) :
    mdLoop env rd od force files pdfs conv (fail + 1)
      = ((mdLoop env rd od force files pdfs conv fail).1,
         (mdLoop env rd od force files pdfs conv fail).2.1,
         (mdLoop env rd od force files pdfs conv fail).2.2 + 1) := by
  induction files generalizing pdfs conv fail with
  | nil => simp [mdLoop]
  | cons f rest ih =>
    simp only [mdLoop]
    rcases hc : convert_file env f rd od force with ⟨p, w, err⟩
    cases err <;> simp [ih]

/-! ### Claim C9 -/

/-- C9: `convert_file` reports a missing markdown source, an unsupported
extension, or a renderer exception as a `(None, False, message)` result
tuple rather than raising (the whole body runs under
`try/except Exception`), and the sequential batch loop processes the
remaining files unchanged, only adding one to the failure tally for the
failed file. -/
theorem claim_C9_convert_file_errors (env : ConvEnv) (fp rd od : String) (force : Bool) :
    (strEndsWith (strToLower fp) ".md" = false → strEndsWith (strToLower fp) ".pdf" = false →
        convert_file env fp rd od force
          = (none, false, some ("Unsupported file type: " ++ fp)))
  ∧ (strEndsWith (strToLower fp) ".md" = true → strEndsWith (strToLower fp) ".pdf" = false →
        env.fs.pexists fp = false →
        convert_file env fp rd od force
          = (none, false, some ("MD file not found: " ++ fp)))
  ∧ (∀ e, strEndsWith (strToLower fp) ".md" = true →
        strEndsWith (strToLower fp) ".pdf" = false →
        env.fs.pexists fp = true →
        is_conversion_needed env.fs fp (get_output_pdf_path env fp rd od) force = true →
        env.render fp = Except.error e →
        convert_file env fp rd od force = (none, false, some e))
  ∧ (∀ pre post pdfs conv fail,
        (convert_file env fp rd od force).2.2.isSome = true →
        mdLoop env rd od force (pre ++ fp :: post) pdfs conv fail
          = ((mdLoop env rd od force (pre ++ post) pdfs conv fail).1,
             (mdLoop env rd od force (pre ++ post) pdfs conv fail).2.1,
             (mdLoop env rd od force (pre ++ post) pdfs conv fail).2.2 + 1)) := by
  refine ⟨fun h1 h2 => ?_, fun h1 h2 h3 => ?_, fun e h1 h2 h3 h4 h5 => ?_,
          fun pre post pdfs conv fail hsome => ?_⟩
  · simp [convert_file, convert_file_body, h1, h2]
  · simp [convert_file, convert_file_body, h1, h2, h3]
  · simp [convert_file, convert_file_body, convert_markdown_to_pdf, h1, h2, h3, h4, h5]
  · induction pre generalizing pdfs conv fail with
    | nil =>
      rcases hr : convert_file env fp rd od force with ⟨p, w, err⟩
      cases err with
      | none => rw [hr] at hsome; simp at hsome
      | some e =>
        simp only [List.nil_append, mdLoop, hr]
        exact mdLoop_failed_add env rd od force post pdfs conv fail
    | cons g rest ih =>
      simp only [List.cons_append, mdLoop]
      rcases hg : convert_file env g rd od force with ⟨p, w, err⟩
      cases err <;> simp [ih]

/-- C9 witness: a markdown reference to a nonexistent file yields the
error tuple rather than an exception. -/
theorem claim_C9_witness :
    convert_file
        ⟨⟨fun _ => false, fun _ => 0⟩, fun _ => Except.error "boom", fun p _ => p⟩
        "a.md" "r" "o" false
      = (none, false, some ("MD file not found: " ++ "a.md")) :=
  (claim_C9_convert_file_errors
      ⟨⟨fun _ => false, fun _ => 0⟩, fun _ => Except.error "boom", fun p _ => p⟩
      "a.md" "r" "o" false).2.1 (by decide) (by decide) rfl

/-! ### bookbuilder/utils.py: rewrite_markdown_links (lines 197 to 259)

`re.sub` with the pattern `\[([^\]]+)\]\(([^)]+)\)` is deterministic: at
a `[`, the text group is everything up to the first `]` (at least one
character), then `](` must follow, and the url group is everything up to
the first `)` (at least one character).  The scanner reproduces the
leftmost, non-overlapping matching of `re.sub`; its `Nat` argument is
fuel, a Lean artifact, and at least one character is consumed per unit. -/

def tryMatchLink (cs : List Char) : Option (List Char × List Char × List Char) :=
  let text := cs.takeWhile (fun c => c != ']')
  match cs.dropWhile (fun c => c != ']') with
  | ']' :: '(' :: rest1 =>
    let url := rest1.takeWhile (fun c => c != ')')
    match rest1.dropWhile (fun c => c != ')') with
    | ')' :: rest => if text ≠ [] ∧ url ≠ [] then some (text, url, rest) else none
    | _ => none
  | _ => none

def scanLinksFuel (f : List Char → List Char → List Char) :
    Nat → List Char → List Char
  | 0, l => l
  | _, [] => []
  | fuel + 1, c :: cs =>
    if c = '[' then
      match tryMatchLink cs with
      | some tur => f tur.1 tur.2.1 ++ scanLinksFuel f fuel tur.2.2
      | none => c :: scanLinksFuel f fuel cs
    else c :: scanLinksFuel f fuel cs

def scanLinks (f : List Char → List Char → List Char) (l : List Char) : List Char :=
  scanLinksFuel f l.length l

/-- The character class `[a-zA-Z0-9+.-]` of the scheme regex. -/
def isSchemeChar (c : Char) : Bool := isAsciiAlnum c || c == '+' || c == '.' || c == '-'

/-- Model of `re.match(r'^[a-zA-Z][a-zA-Z0-9+.-]*:', url)`: one letter,
then the maximal run of scheme characters, then a colon (the class
excludes the colon, so the greedy run is exact). -/
def isSchemeUrl : List Char → Bool
  | c :: rest => isAsciiAlpha c && ((rest.dropWhile isSchemeChar).head? == some ':')
  | [] => false

/-- `key in anchor_map` plus `anchor_map[key]` on the dict, modelled as
first-match lookup in an association list with unique keys. -/
def mapLookup (m : List (String × String)) (k : String) : Option String :=
  (m.find? (fun kv => kv.1 == k)).map Prod.snd

/-- `url.split('#')[0].split('?')[0]`. -/
def linkPathPart (url : List Char) : List Char :=
  (url.takeWhile (fun c => c != '#')).takeWhile (fun c => c != '?')

/-- The lookup chain of replace_link: bare basename, URL-decoded
basename, full path, URL-decoded path, first hit wins. -/
def anchorChain (m : List (String × String)) (path_part : List Char) : Option String :=
  match mapLookup m ⟨basenameL path_part⟩ with
  | some a => some a
  | none =>
    match mapLookup m ⟨unquoteAux (basenameL path_part)⟩ with
    | some a => some a
    | none =>
      match mapLookup m ⟨path_part⟩ with
      | some a => some a
      | none => mapLookup m ⟨unquoteAux path_part⟩

/-- The matched text of one inline link `[t](u)`. -/
def mkLink (t u : List Char) : List Char := '[' :: (t ++ (']' :: '(' :: (u ++ [')'])))

/-- The replacement function applied to each regex match (the inner
`replace_link` of utils.py lines 213 to 257), including the final
`if anchor:` truthiness test under which an empty anchor string keeps
the original link. -/
def replace_link (m : List (String × String)) (t u : List Char) : List Char :=
  if isSchemeUrl u then mkLink t u
  else if u.head? == some '#' then mkLink t u
  else
    let path_part := linkPathPart u
    if ! endsInMdL path_part then mkLink t u
    else
      match anchorChain m path_part with
      | some a =>
        if a = "" then mkLink t u
        else '[' :: t ++ ']' :: '(' :: '#' :: a.data ++ [')']
      | none => mkLink t u

def rewrite_markdown_links (md_content : String) (anchor_map : List (String × String)) :
    String :=
  ⟨scanLinks (replace_link anchor_map) md_content.data⟩

lemma takeWhile_append_all {α : Type} (p : α → Bool) (l r : List α)
    (h : ∀ x ∈ l, p x = true) : (l ++ r).takeWhile p = l ++ r.takeWhile p := by
  induction l with
  | nil => simp
  | cons a rest ih =>
    have ha : p a = true := h a (by simp)
    simp only [List.cons_append, List.takeWhile_cons, ha, if_true]
    rw [ih (fun x hx => h x (by simp [hx]))]

lemma dropWhile_append_all {α : Type} (p : α → Bool) (l r : List α)
    (h : ∀ x ∈ l, p x = true) : (l ++ r).dropWhile p = r.dropWhile p := by
  induction l with
  | nil => simp
  | cons a rest ih =>
    have ha : p a = true := h a (by simp)
    simp only [List.cons_append, List.dropWhile_cons, ha, if_true]
    exact ih (fun x hx => h x (by simp [hx]))

lemma tryMatchLink_mk (t u : List Char) (ht : t ≠ []) (ht2 : ']' ∉ t)
    (hu : u ≠ []) (hu2 : ')' ∉ u) :
    tryMatchLink (t ++ (']' :: '(' :: (u ++ [')']))) = some (t, u, []) := by
  have htp : ∀ x ∈ t, (x != ']') = true := by
    intro x hx
    simp only [bne_iff_ne, ne_eq]
    intro hx2
    exact ht2 (hx2 ▸ hx)
  have hup : ∀ x ∈ u, (x != ')') = true := by
    intro x hx
    simp only [bne_iff_ne, ne_eq]
    intro hx2
    exact hu2 (hx2 ▸ hx)
  simp only [tryMatchLink, takeWhile_append_all _ t _ htp, dropWhile_append_all _ t _ htp,
    List.takeWhile_cons, List.dropWhile_cons]
  simp [takeWhile_append_all _ u _ hup, dropWhile_append_all _ u _ hup, ht, hu]

lemma scanLinksFuel_nil (f : List Char → List Char → List Char) (fuel : Nat) :
    scanLinksFuel f fuel [] = [] := by
  cases fuel <;> simp [scanLinksFuel]

lemma scanLinks_single (f : List Char → List Char → List Char) (t u : List Char)
    (ht : t ≠ []) (ht2 : ']' ∉ t) (hu : u ≠ []) (hu2 : ')' ∉ u) :
    scanLinks f (mkLink t u) = f t u := by
  unfold scanLinks mkLink
  simp only [List.length_cons, scanLinksFuel, eq_self_iff_true, if_true]
  rw [tryMatchLink_mk t u ht ht2 hu hu2]
  simp [scanLinksFuel_nil]

/-! ### Claim C4 (corrected) -/

/-- C4 counterexample: a `.md` link whose basename is registered in the
anchor map is nevertheless left unmodified when the registered anchor ID
is the empty string, because the code tests the anchor with a Python
truthiness check (`if anchor:`); the claim as stated requires the target
to become `#` followed by the anchor. -/
theorem claim_C4_counterexample :
    rewrite_markdown_links "[t](a.md)" [("a.md", "")] = "[t](a.md)"
  ∧ mapLookup [("a.md", "")] "a.md" = some ""
  ∧ rewrite_markdown_links "[t](a.md)" [("a.md", "")] ≠ "[t](#)" := by
  refine ⟨by decide, by decide, by decide⟩

/-- C4 amended: link rewriting never modifies an inline link whose target
starts with a URI scheme, starts with `#`, or whose path component
(after stripping a trailing fragment or query) does not end in `.md`;
for a `.md` target, the anchor is taken from the first of its registered
textual forms (basename, URL-decoded basename, full path, URL-decoded
path, in that order) present in the anchor map, and the target is
replaced by `#<anchorId>` provided that anchor ID is non-empty; when no
form is present, or the first present form maps to an empty (falsy)
anchor ID, the link is left unmodified. -/
theorem claim_C4_link_rewriting (m : List (String × String)) (t u : List Char)
    (ht : t ≠ []) (ht2 : ']' ∉ t) (hu : u ≠ []) (hu2 : ')' ∉ u) :
    (isSchemeUrl u = true → rewrite_markdown_links ⟨mkLink t u⟩ m = ⟨mkLink t u⟩)
  ∧ (u.head? = some '#' → rewrite_markdown_links ⟨mkLink t u⟩ m = ⟨mkLink t u⟩)
  ∧ (endsInMdL (linkPathPart u) = false →
      rewrite_markdown_links ⟨mkLink t u⟩ m = ⟨mkLink t u⟩)
  ∧ (∀ a, isSchemeUrl u = false → u.head? ≠ some '#' →
      endsInMdL (linkPathPart u) = true →
      anchorChain m (linkPathPart u) = some a → a ≠ "" →
      rewrite_markdown_links ⟨mkLink t u⟩ m
        = ⟨'[' :: t ++ ']' :: '(' :: '#' :: a.data ++ [')']⟩)
  ∧ (isSchemeUrl u = false → u.head? ≠ some '#' →
      endsInMdL (linkPathPart u) = true →
      (anchorChain m (linkPathPart u) = none ∨ anchorChain m (linkPathPart u) = some "") →
      rewrite_markdown_links ⟨mkLink t u⟩ m = ⟨mkLink t u⟩)
  ∧ ((anchorChain m (linkPathPart u)).isSome = true ↔
      ((mapLookup m ⟨basenameL (linkPathPart u)⟩).isSome = true
        ∨ (mapLookup m ⟨unquoteAux (basenameL (linkPathPart u))⟩).isSome = true
        ∨ (mapLookup m ⟨linkPathPart u⟩).isSome = true
        ∨ (mapLookup m ⟨unquoteAux (linkPathPart u)⟩).isSome = true)) := by
  have hs : rewrite_markdown_links ⟨mkLink t u⟩ m = ⟨replace_link m t u⟩ := by
    unfold rewrite_markdown_links
    rw [show (⟨mkLink t u⟩ : String).data = mkLink t u from rfl,
        scanLinks_single (replace_link m) t u ht ht2 hu hu2]
  refine ⟨fun h1 => ?_, fun h1 => ?_, fun h1 => ?_,
          fun a h1 h2 h3 h4 h5 => ?_, fun h1 h2 h3 h4 => ?_, ?_⟩
  · rw [hs]
    simp [replace_link, h1]
  · rw [hs]
    simp [replace_link, h1]
  · rw [hs]
    unfold replace_link
    split
    · rfl
    · split
      · rfl
      · simp [h1]
  · rw [hs]
    simp [replace_link, h1, h2, h3, h4, h5]
  · rw [hs]
    rcases h4 with h4 | h4 <;> simp [replace_link, h1, h2, h3, h4]
  · unfold anchorChain
    cases hl1 : mapLookup m ⟨basenameL (linkPathPart u)⟩ <;>
      cases hl2 : mapLookup m ⟨unquoteAux (basenameL (linkPathPart u))⟩ <;>
        cases hl3 : mapLookup m ⟨linkPathPart u⟩ <;>
          cases hl4 : mapLookup m ⟨unquoteAux (linkPathPart u)⟩ <;>
            simp

/-- C4 witness: a registered `.md` link is rewritten to its anchor, with
every skip condition evaluated at the concrete input. -/
theorem claim_C4_witness :
    rewrite_markdown_links "[see](ch1.md)" [("ch1.md", "ch1")] = "[see](#ch1)" := by
  have h := (claim_C4_link_rewriting [("ch1.md", "ch1")] "see".data "ch1.md".data
      (by decide) (by decide) (by decide) (by decide)).2.2.2.1 "ch1"
      (by decide) (by decide) (by decide) (by decide) (by decide)
  exact h

end BookBuilder
